import Mathlib

/-!
Verification of the nofx-go trading agent core against its specification.

The Go source is shallowly embedded: float64 arithmetic is modelled by exact
rationals (ℚ), Unix timestamps by ℕ, Go strings by Lean `String`, and the
coordination store (Redis) by explicit state passed through each operation.
Randomness (lock tokens) is passed as an explicit argument.  Fallible store
calls are modelled by an explicit error flag on the event.
-/

namespace Nofx

/-! ## Indicator kernel (internal/indicators: CalculateEMA, CalculateRSI) -/

/-- Embedding of Go `CalculateEMA` (indicators package).  Seeds with the SMA
of the first `period` samples, then folds the EMA recurrence with
multiplier `2/(period+1)` over the remaining samples.  Returns 0 when
`len(prices) < period`.  (For `period = 0` Go would divide 0.0 by 0.0; the
claims only concern `period ≥ 1`.) -/
def calculateEMA (prices : List ℚ) (period : ℕ) : ℚ :=
  if prices.length < period then 0
  else if prices.length = 0 then 0
  else
    let seed := (prices.take period).sum / (period : ℚ)
    let multiplier : ℚ := 2 / ((period : ℚ) + 1)
    (prices.drop period).foldl (fun ema p => (p - ema) * multiplier + ema) seed

/-- Consecutive differences `prices[i] - prices[i-1]`, as computed by the
loop in Go `CalculateRSI`. -/
def priceChanges (prices : List ℚ) : List ℚ :=
  (prices.zip prices.tail).map (fun ab => ab.2 - ab.1)

/-- Embedding of Go `CalculateRSI` (indicators package).  Returns 50 when
`len(prices) < period+1` (insufficient data), 100 when the seed average
loss is zero, and Wilder's simple-average-seed RSI otherwise. -/
def calculateRSI (prices : List ℚ) (period : ℕ) : ℚ :=
  if prices.length < period + 1 then 50
  else
    let changes := priceChanges prices
    let gains := changes.map (fun c => if c > 0 then c else 0)
    let losses := changes.map (fun c => if c > 0 then 0 else -c)
    if gains.length < period then 50
    else
      let avgGain := (gains.take period).sum / (period : ℚ)
      let avgLoss := (losses.take period).sum / (period : ℚ)
      if avgLoss = 0 then 100
      else 100 - 100 / (1 + avgGain / avgLoss)

/-! ## Rate limiter backoff (internal/exchange/ratelimiter.go: BackoffManager) -/

/-- The multiplier loop in Go `OnRateLimited`:
`multiplier := 1.0; for i := 0; i < exp; i++ { multiplier *= 2.0 }`. -/
def backoffMultiplier (exp : ℕ) : ℚ :=
  (List.range exp).foldl (fun m _ => m * 2) 1

/-- The `maxLevel` field of the global `BackoffManager`. -/
def backoffMaxLevel : ℕ := 6

/-- The `maxSec` field of the global `BackoffManager`. -/
def backoffMaxSec : ℚ := 60

/-- Embedding of the wait-second computation of Go `OnRateLimited`:
the raw wait is the parsed Retry-After if present, else
`min(base·2^min(level,6), 60)` with base 60 for HTTP 418 and 1 otherwise;
the raw wait is then clamped to `[1, 60]` and jitter `min(0.1·wait, 1)`
is added.  `level` is the consecutive-failure counter read before the call
increments it. -/
def onRateLimitedWait (level : ℕ) (status : ℕ) (retryAfter : Option ℚ) : ℚ :=
  let waitSec0 : ℚ :=
    match retryAfter with
    | some r => r
    | none =>
      let base : ℚ := if status ≠ 418 then 1 else 60
      let exp := min level backoffMaxLevel
      min (base * backoffMultiplier exp) backoffMaxSec
  let waitSec := max 1 (min waitSec0 backoffMaxSec)
  let jitter0 := (1 / 10 : ℚ) * waitSec
  let jitter := if jitter0 > 1 then 1 else jitter0
  waitSec + jitter

/-- The level update in Go `OnRateLimited`:
`bm.backoffLevel[endpoint] = min(bm.maxLevel, level+1)`. -/
def onRateLimitedLevel (level : ℕ) : ℕ :=
  min backoffMaxLevel (level + 1)

/-- Embedding of Go `SetBackoff`: ignores a non-positive wait, otherwise
moves the release time forward to `now + waitSec` unless a later release
is already pending. -/
def setBackoff (untilOpt : Option ℚ) (now waitSec : ℚ) : Option ℚ :=
  if waitSec ≤ 0 then untilOpt
  else
    match untilOpt with
    | none => some (now + waitSec)
    | some cur => if now + waitSec > cur then some (now + waitSec) else some cur

/-- The wait-second computation exactly as claim C8 words it: wait equals the
parsed Retry-After when present, otherwise `base × 2^level` capped at 60,
and jitter `min(0.1·wait, 1)` is added in both cases.  Used only to compare
the claim against the source embedding. -/
def claimC8Wait (level : ℕ) (status : ℕ) (retryAfter : Option ℚ) : ℚ :=
  let w : ℚ :=
    match retryAfter with
    | some r => r
    | none => min ((if status = 418 then (60 : ℚ) else 1) * 2 ^ level) 60
  w + min ((1 / 10 : ℚ) * w) 1

/-- The raw (pre-clamp, pre-jitter) wait of the amended claim C8: Retry-After
when present, else `base × 2^level` capped at 60. -/
def rawWaitC8 (level : ℕ) (status : ℕ) (retryAfter : Option ℚ) : ℚ :=
  match retryAfter with
  | some r => r
  | none => min ((if status = 418 then (60 : ℚ) else 1) * 2 ^ level) 60

/-! ## Order dedupe (internal/execution/lock.go: checkAndSetDedupe)

The dedupe key is `dedupe:{symbol}:{action}:{side}:{entry %.8f}:{now/windowSec}`;
two invocations collide exactly when all five components coincide, so the key
is modelled as the tuple of its components, with the `%.8f` rendering of the
entry price modelled by its value rounded to 8 decimal places (as a scaled
integer).  The store maps each key to the absolute expiry time of its TTL. -/

/-- Go `math.Round`: round half away from zero. -/
def goRound (x : ℚ) : ℤ :=
  if x < 0 then -⌊-x + 1 / 2⌋ else ⌊x + 1 / 2⌋

/-- The entry price as printed by `%.8f`, as an integer number of 1e-8 units. -/
def round8 (x : ℚ) : ℤ :=
  goRound (x * 100000000)

/-- A dedupe key: the components of `dedupe:%s:%s:%s:%.8f:%d`. -/
structure DedupeKey where
  symbol : String
  action : String
  side : String
  entryE8 : ℤ
  window : ℕ
deriving DecidableEq, Repr

/-- One invocation of `checkAndSetDedupe`: the wall-clock second, the signal
fields the key is built from, and whether the store's EXISTS call errors. -/
structure DedupeEvent where
  time : ℕ
  symbol : String
  action : String
  side : String
  entry : ℚ
  storeErr : Bool
deriving Repr

/-- The dedupe keys currently in the store, with their absolute expiry. -/
abbrev DedupeStore := List (DedupeKey × ℕ)

/-- The key `checkAndSetDedupe` composes:
`timeWindow := time.Now().Unix() / int64(windowSec)`. -/
def mkDedupeKey (w : ℕ) (ev : DedupeEvent) : DedupeKey :=
  ⟨ev.symbol, ev.action, ev.side, round8 ev.entry, ev.time / w⟩

/-- Redis `EXISTS`-time lookup of a key's expiry. -/
def lookupExpiry (s : DedupeStore) (k : DedupeKey) : Option ℕ :=
  (s.find? (fun e => decide (e.1 = k))).map (·.2)

/-- A key exists at `now` iff it was set and its TTL has not elapsed. -/
def dedupeKeyLive (s : DedupeStore) (k : DedupeKey) (now : ℕ) : Bool :=
  match lookupExpiry s k with
  | some exp => decide (now < exp)
  | none => false

/-- Embedding of Go `checkAndSetDedupe`.  Returns true (proceed) when the
store errors, without writing a marker; returns false on a live key; else
writes the key with TTL `windowSec` (or the configured default when
`windowSec ≤ 0`) and returns true. -/
def checkAndSetDedupe (w defW : ℕ) (s : DedupeStore) (ev : DedupeEvent) :
    Bool × DedupeStore :=
  let k := mkDedupeKey w ev
  if ev.storeErr then (true, s)
  else if dedupeKeyLive s k ev.time then (false, s)
  else
    let ttl := if 0 < w then w else defW
    (true, (k, ev.time + ttl) :: s)

/-- Folds `checkAndSetDedupe` over a sequence of invocations. -/
def processDedupe (w defW : ℕ) (s : DedupeStore) (evs : List DedupeEvent) :
    DedupeStore :=
  evs.foldl (fun st ev => (checkAndSetDedupe w defW st ev).2) s

/-! ## Distributed lock (internal/execution/lock.go: acquireLock/releaseLock) -/

/-- The lock key's state: the stored token and its absolute expiry, if set. -/
abbrev LockState := Option (String × ℕ)

/-- The token visible at `now`: a set token whose TTL has not elapsed. -/
def lockHolder (s : LockState) (now : ℕ) : Option String :=
  match s with
  | some (tok, exp) => if now < exp then some tok else none
  | none => none

/-- Embedding of Go `acquireLock`: SETNX with expiry succeeds exactly when no
unexpired value is stored; the random 128-bit hex token is an argument. -/
def acquireLock (s : LockState) (now ttl : ℕ) (tok : String) :
    Option String × LockState :=
  match lockHolder s now with
  | some _ => (none, s)
  | none => (some tok, some (tok, now + ttl))

/-- Embedding of Go `releaseLock`'s Lua script:
`if get(key) == token then del(key) else 0`, executed atomically. -/
def releaseLock (s : LockState) (now : ℕ) (tok : String) : LockState :=
  match lockHolder s now with
  | some cur => if cur = tok then none else s
  | none => s

/-- Events that can touch the lock key: an acquisition attempt (with its own
token and TTL) or a release attempt.  Expiry is by the passage of time. -/
inductive LockEvent where
  | acq : ℕ → ℕ → String → LockEvent
  | rel : ℕ → String → LockEvent
deriving Repr

/-- One lock event's effect on the key. -/
def lockStep (s : LockState) : LockEvent → LockState
  | .acq now ttl tok => (acquireLock s now ttl tok).2
  | .rel now tok => releaseLock s now tok

/-- The lock state after an arbitrary interleaving of events. -/
def runLockEvents (s : LockState) (evs : List LockEvent) : LockState :=
  evs.foldl lockStep s

/-! ## Audit truncation (internal/execution/lock.go: saveAudit) -/

/-- The literal suffix Go appends after truncating an over-long audit event. -/
def auditTruncMark : List Char := "...[已截断]".toList

/-- Embedding of the event-size limiting in Go `saveAudit`: the configured
limit (defaulting to 2000 when non-positive) is applied to the serialized
event, and over-long events are cut at the limit and marked with the
suffix.  The serialized JSON is modelled as its character list. -/
def truncateAuditEvent (ev : List Char) (maxChars : ℤ) : List Char :=
  let m : ℕ := if maxChars ≤ 0 then 2000 else maxChars.toNat
  if m < ev.length then ev.take m ++ auditTruncMark else ev

/-! ## Protection guard (src/unnamed/part_006: EnsureSLTPGuardOnce,
cleanupProtection, isReduceOnly, SaveProtection)

The exchange and the coordination store are modelled together as one
`GuardState`: the open positions, the stored `protection:{symbol}:{side}`
entries (keyed by the two key components), the open orders, a fresh-order-id
counter, and the audit event names pushed so far.  The guard is the single
reconciler instance, so its per-position lock always acquires, and exchange
calls succeed (the claims concern the reconciliation logic, not I/O
failures). -/

/-- Go `strings.ToLower`, on the ASCII strings the guard handles
(symbols and LONG/SHORT side labels): per-character lower-casing. -/
def strToLower (s : String) : String :=
  ⟨s.data.map Char.toLower⟩

/-- Go `strings.ToUpper`, on the ASCII strings the guard handles. -/
def strToUpper (s : String) : String :=
  ⟨s.data.map Char.toUpper⟩

/-- An exchange order (pkg/types Order, the fields the guard reads). -/
structure Order where
  id : ℕ
  symbol : String
  side : String
  positionSide : String
  orderType : String
  quantity : ℚ
  price : ℚ
  stopPrice : ℚ
  reduceOnly : Bool
deriving DecidableEq, Repr

/-- An open position (pkg/types Position, the fields the guard reads). -/
structure Position where
  symbol : String
  side : String
  size : ℚ
deriving DecidableEq, Repr

/-- A stored protection entry (the JSON map written by `SaveProtection`). -/
structure Protection where
  stopLoss : ℚ
  takeProfit1 : ℚ
  takeProfit2 : ℚ
  tp1Ratio : ℚ
  signalId : String
deriving DecidableEq, Repr

/-- The combined exchange-plus-store state one guard pass acts on. -/
structure GuardState where
  positions : List Position
  protections : List ((String × String) × Protection)
  orders : List Order
  nextId : ℕ
  audits : List String
deriving Repr

/-- The map `posMap[symbol][strings.ToLower(side)]` built in `EnsureSLTPGuardOnce`
and read (with default 0) in `cleanupProtection`; entries written later in
the positions slice overwrite earlier ones. -/
def posMapGet (ps : List Position) (sym sideLower : String) : ℚ :=
  ps.foldl (fun acc p => if p.symbol = sym ∧ strToLower p.side = sideLower then p.size else acc) 0

/-- Redis GET of `protection:{symbol}:{positionSide}`. -/
def lookupProtection (ps : List ((String × String) × Protection))
    (symbol posSide : String) : Option Protection :=
  (ps.find? (fun e => decide (e.1 = (symbol, posSide)))).map (·.2)

/-- Head-push of an audit event name (`saveAudit`, reduced to its event). -/
def pushAudit (s : GuardState) (name : String) : GuardState :=
  { s with audits := name :: s.audits }

/-- The exchange accepting an order: appended with a fresh id. -/
def appendOrder (s : GuardState) (symbol oside posSide otype : String)
    (qty price stop : ℚ) (ro : Bool) : GuardState :=
  { s with
    orders := s.orders ++ [⟨s.nextId, symbol, oside, posSide, otype, qty, price, stop, ro⟩],
    nextId := s.nextId + 1 }

/-- Embedding of Go `placeStopLossOrder`: a reduce-only STOP_MARKET with the
opposing side (`SELL` unless the position side is `SHORT`). -/
def placeStopLossOrder (s : GuardState) (symbol side : String)
    (quantity stopPrice : ℚ) : GuardState :=
  let orderSide := if side = "SHORT" then "BUY" else "SELL"
  appendOrder s symbol orderSide (strToUpper side) "STOP_MARKET" quantity 0 stopPrice true

/-- Embedding of Go `placeTakeProfitOrder`: a reduce-only TAKE_PROFIT_MARKET
with the opposing side; the target price goes into the stop-price field. -/
def placeTakeProfitOrder (s : GuardState) (symbol side : String)
    (quantity tpPrice : ℚ) : GuardState :=
  let orderSide := if side = "SHORT" then "BUY" else "SELL"
  appendOrder s symbol orderSide (strToUpper side) "TAKE_PROFIT_MARKET" quantity 0 tpPrice true

/-- Embedding of Go `isReduceOnly` (part_006): a type-based approximation
that treats exactly the four conditional order types as reduce-only. -/
def isReduceOnly (o : Order) : Bool :=
  decide (o.orderType = "TAKE_PROFIT" ∨ o.orderType = "TAKE_PROFIT_MARKET" ∨
    o.orderType = "STOP" ∨ o.orderType = "STOP_MARKET")

/-- The side filter of the hasSL/hasTP classification in
`EnsureSLTPGuardOnce`, verbatim: it compares `side` — which the function
lowercased two lines earlier — against the upper-case literals. -/
def guardSideMatch (side : String) (o : Order) : Prop :=
  (side = "LONG" ∧ o.side = "SELL") ∨ (side = "SHORT" ∧ o.side = "BUY")

instance (side : String) (o : Order) : Decidable (guardSideMatch side o) := by
  unfold guardSideMatch
  infer_instance

/-- The TP1 branch condition of the classification loop:
`takeProfit1 > 0 && |o.Price − tp1| < |o.Price − tp2|`. -/
def tp1Nearer (tp1 tp2 : ℚ) (o : Order) : Prop :=
  tp1 > 0 ∧ |o.price - tp1| < |o.price - tp2|

instance (tp1 tp2 : ℚ) (o : Order) : Decidable (tp1Nearer tp1 tp2 o) := by
  unfold tp1Nearer
  infer_instance

/-- The per-position body of `EnsureSLTPGuardOnce` (the inner closure),
including its lower/upper-cased `side`/`positionSide` locals. -/
def guardPosition (s : GuardState) (pos : Position) : GuardState :=
  let symbol := pos.symbol
  let side := strToLower pos.side
  let positionSide := strToUpper pos.side
  let size := pos.size
  if size ≤ 0 then s
  else
    match lookupProtection s.protections symbol positionSide with
    | none => s
    | some prot =>
      let stopLoss := prot.stopLoss
      let takeProfit1 := prot.takeProfit1
      let takeProfit2 := prot.takeProfit2
      if stopLoss ≤ 0 ∨ takeProfit1 ≤ 0 then
        pushAudit s "guard_invalid_protection_params"
      else
        let opens := s.orders.filter (fun o => decide (o.symbol = symbol))
        let hasSL := opens.any (fun o => decide (o.reduceOnly = true ∧
          (o.orderType = "STOP" ∨ o.orderType = "STOP_MARKET") ∧ guardSideMatch side o))
        let hasTP1 := opens.any (fun o => decide (o.reduceOnly = true ∧
          (o.orderType = "TAKE_PROFIT" ∨ o.orderType = "TAKE_PROFIT_MARKET") ∧
          guardSideMatch side o ∧ tp1Nearer takeProfit1 takeProfit2 o))
        let hasTP2 := opens.any (fun o => decide (o.reduceOnly = true ∧
          (o.orderType = "TAKE_PROFIT" ∨ o.orderType = "TAKE_PROFIT_MARKET") ∧
          guardSideMatch side o ∧ ¬tp1Nearer takeProfit1 takeProfit2 o ∧ takeProfit2 > 0))
        let tp1Ratio := max 0 (min prot.tp1Ratio 1)
        let amt1 := (goRound (size * tp1Ratio * 100000000) : ℚ) / 100000000
        let amt2 := (goRound (max 0 (size - amt1) * 100000000) : ℚ) / 100000000
        let amt1F := if amt1 ≤ 0 then size else amt1
        let amt2F := if amt1 ≤ 0 then 0 else amt2
        let needTP2 := takeProfit2 > 0 ∧ amt2F > 0
        let s1 := if hasSL then s
          else pushAudit (placeStopLossOrder s symbol positionSide size stopLoss)
            "guard_stop_loss_placed"
        let s2 := if hasTP1 then s1
          else pushAudit (placeTakeProfitOrder s1 symbol positionSide amt1F takeProfit1)
            "guard_take_profit_placed"
        if needTP2 ∧ hasTP2 = false then
          pushAudit (placeTakeProfitOrder s2 symbol positionSide amt2F takeProfit2)
            "guard_take_profit_placed"
        else s2

/-- One `protection:*` key's handling inside Go `cleanupProtection`: the key's
components are upper-cased by the parse, positions are consulted through
`posMap`, matching type-classified reduce-only orders are cancelled (with
one audit event when any were), and the entry is deleted. -/
def cleanupKey (st : GuardState) (key : String × String) : GuardState :=
  let symbol := strToUpper key.1
  let positionSide := strToUpper key.2
  let side := strToLower positionSide
  let curAmt := posMapGet st.positions symbol side
  if 0 < curAmt then st
  else
    let cancelPred := fun (o : Order) =>
      decide (o.symbol = symbol) && isReduceOnly o && decide (strToUpper o.positionSide = positionSide)
    let cancelled := (st.orders.filter cancelPred).length
    let st1 := { st with orders := st.orders.filter (fun o => !cancelPred o) }
    let st2 := if 0 < cancelled then pushAudit st1 "auto_cancel_reduceonly_after_flat" else st1
    { st2 with protections := st2.protections.filter (fun e => decide (e.1 ≠ key)) }

/-- Embedding of Go `cleanupProtection`: SCAN collects the `protection:*`
keys, then each is processed in turn. -/
def cleanupProtection (s : GuardState) : GuardState :=
  (s.protections.map (·.1)).foldl cleanupKey s

/-- Embedding of Go `EnsureSLTPGuardOnce`: abort when no positions, else
reconcile every position and then run the orphan cleanup. -/
def ensureSLTPGuardOnce (s : GuardState) : GuardState :=
  if s.positions.length = 0 then s
  else cleanupProtection (s.positions.foldl guardPosition s)

/-- The S3 scenario state: position (BTCUSDT, LONG, 1.0) with stored
protection {sl 48000, tp1 52000, tp2 0, ratio 0.5} and no open orders. -/
def s3State : GuardState :=
  { positions := [⟨"BTCUSDT", "LONG", 1⟩]
    protections := [(("BTCUSDT", "LONG"), ⟨48000, 52000, 0, 1 / 2, "sig-1"⟩)]
    orders := []
    nextId := 0
    audits := [] }

/-- An orphaned-protection state with a reduce-only LIMIT order left open:
no position, a stored `protection:ETHUSDT:LONG` entry, and one open
reduce-only LIMIT sell for (ETHUSDT, LONG). -/
def orphanLimitState : GuardState :=
  { positions := []
    protections := [(("ETHUSDT", "LONG"), ⟨2800, 3400, 0, 1 / 2, "sig-2"⟩)]
    orders := [⟨7, "ETHUSDT", "SELL", "LONG", "LIMIT", 1, 2800, 0, true⟩]
    nextId := 8
    audits := [] }

/-! ## Theorems -/

/-- Claim C6, counterexample: `CalculateRSI` on the strictly increasing
14-price list `[1..14]` with period 14 returns 50 (the insufficient-data
default, since Wilder's RSI with period 14 needs 15 prices), not 100 as
the claim states. -/
theorem calculateRSI_on_1to14_is_50 :
    calculateRSI [1, 2, 3, 4, 5, 6, 7, 8, 9, 10, 11, 12, 13, 14] 14 = 50 ∧
    (50 : ℚ) ≠ 100 := by
  constructor
  · norm_num [calculateRSI]
  · norm_num

/-- Claim C6 (amended): `CalculateRSI` on the strictly increasing 15-price
list `[1..15]` with period 14 returns 100, because all 14 changes are gains
and the seed average loss is zero. -/
theorem calculateRSI_on_1to15_is_100 :
    calculateRSI [1, 2, 3, 4, 5, 6, 7, 8, 9, 10, 11, 12, 13, 14, 15] 14 = 100 := by
  norm_num [calculateRSI, priceChanges]

/-- Claim C7, counterexample: for the price list `[0]` and period 1,
`CalculateEMA` returns 0 even though `len(prices) < p` fails, so the
claimed equivalence `EMA = 0 ⟺ len < p` is false as stated. -/
theorem calculateEMA_zero_despite_enough_data :
    calculateEMA [0] 1 = 0 ∧ ¬(([(0 : ℚ)] : List ℚ).length < 1) := by
  constructor
  · norm_num [calculateEMA]
  · norm_num

/-- The EMA recurrence keeps a positive accumulator positive when the
multiplier lies in `(0, 1]` and all prices are positive. -/
theorem ema_foldl_pos (k : ℚ) (hk0 : 0 < k) (hk1 : k ≤ 1) :
    ∀ (l : List ℚ), (∀ x ∈ l, 0 < x) → ∀ e : ℚ, 0 < e →
      0 < l.foldl (fun ema p => (p - ema) * k + ema) e := by
  intro l
  induction l with
  | nil => intro _ e he; simpa using he
  | cons p t ih =>
    intro hl e he
    simp only [List.foldl_cons]
    apply ih (fun x hx => hl x (List.mem_cons_of_mem _ hx))
    have hp : 0 < p := hl p (List.mem_cons_self _ _)
    have hrw : (p - e) * k + e = p * k + e * (1 - k) := by ring
    rw [hrw]
    exact add_pos_of_pos_of_nonneg (mul_pos hp hk0)
      (mul_nonneg he.le (by linarith))

/-- Claim C7 (amended): for every period `p ≥ 1`, `CalculateEMA(prices, p)`
is 0 whenever `len(prices) < p`; the converse direction of the claimed
equivalence holds under the additional hypothesis that every price is
positive (an all-zero price list with `len ≥ p` also yields 0). -/
theorem calculateEMA_zero_iff_of_pos (prices : List ℚ) (p : ℕ) (hp : 1 ≤ p)
    (hpos : ∀ x ∈ prices, 0 < x) :
    calculateEMA prices p = 0 ↔ prices.length < p := by
  constructor
  · intro h0
    by_contra hlen
    push_neg at hlen
    have hlen0 : prices.length ≠ 0 := by omega
    have hk0 : 0 < (2 : ℚ) / ((p : ℚ) + 1) := by positivity
    have hp1 : (1 : ℚ) ≤ (p : ℚ) := by exact_mod_cast hp
    have hk1 : (2 : ℚ) / ((p : ℚ) + 1) ≤ 1 := by
      rw [div_le_one (by positivity)]
      linarith
    have hseed : 0 < (prices.take p).sum / (p : ℚ) := by
      apply div_pos
      · apply List.sum_pos
        · intro x hx
          exact hpos x (List.take_subset p prices hx)
        · have : (prices.take p).length = p := by
            rw [List.length_take]
            omega
          intro hnil
          rw [hnil] at this
          simp at this
          omega
      · exact_mod_cast Nat.lt_of_lt_of_le Nat.zero_lt_one hp
    have hposd : ∀ x ∈ prices.drop p, 0 < x :=
      fun x hx => hpos x (List.drop_subset p prices hx)
    have hfold := ema_foldl_pos ((2 : ℚ) / ((p : ℚ) + 1)) hk0 hk1
      (prices.drop p) hposd ((prices.take p).sum / (p : ℚ)) hseed
    rw [calculateEMA, if_neg (not_lt.mpr hlen), if_neg hlen0] at h0
    simp only [h0] at hfold
    exact lt_irrefl 0 hfold
  · intro hlen
    rw [calculateEMA, if_pos hlen]

/-- Claim C7 witness: the amended equivalence evaluated at `prices = [1]`,
`p = 1`: the hypotheses hold and the EMA equals 1, so neither side of the
equivalence holds. -/
theorem calculateEMA_zero_iff_of_pos_witness :
    (calculateEMA [1] 1 = 0 ↔ ([(1 : ℚ)] : List ℚ).length < 1) ∧
    calculateEMA [1] 1 = 1 := by
  constructor
  · exact calculateEMA_zero_iff_of_pos [1] 1 (by norm_num) (by norm_num)
  · norm_num [calculateEMA]

/-- Claim C9, counterexample: with `order_audit_event_max_chars = 10`, an
11-character event serializes to an 18-character stored string (the 10-char
cut plus the 8-char marker), so the stored string is not bounded by the
configured limit as the claim states. -/
theorem truncateAuditEvent_exceeds_limit :
    (truncateAuditEvent (List.replicate 11 'a') 10).length = 18 ∧
    ¬((truncateAuditEvent (List.replicate 11 'a') 10).length ≤ 10) := by
  constructor <;> decide

/-- Claim C9 (amended): every stored audit event is at most
`order_audit_event_max_chars` (2000 when the setting is non-positive) plus
the length of the truncation marker; events within the limit are stored
verbatim, and over-long events are cut at the limit with the marker
appended. -/
theorem truncateAuditEvent_length_bound (ev : List Char) (m : ℤ) :
    (truncateAuditEvent ev m).length ≤
      (if m ≤ 0 then 2000 else m.toNat) + auditTruncMark.length ∧
    (ev.length ≤ (if m ≤ 0 then 2000 else m.toNat) → truncateAuditEvent ev m = ev) ∧
    ((if m ≤ 0 then 2000 else m.toNat) < ev.length →
      truncateAuditEvent ev m = ev.take (if m ≤ 0 then 2000 else m.toNat) ++ auditTruncMark) := by
  unfold truncateAuditEvent
  set eff := if m ≤ 0 then 2000 else m.toNat with heff
  by_cases hcase : eff < ev.length
  · rw [if_pos hcase]
    refine ⟨?_, fun hle => absurd hcase (not_lt.mpr hle), fun _ => rfl⟩
    rw [List.length_append, List.length_take]
    omega
  · rw [if_neg hcase]
    refine ⟨?_, fun _ => rfl, fun hlt => absurd hlt hcase⟩
    omega

/-- Claim C9 witness: the amended bound evaluated at the 11-character event
and limit 10: truncation occurred, the marked form is produced, and the
stored length is within limit-plus-marker. -/
theorem truncateAuditEvent_length_bound_witness :
    (truncateAuditEvent (List.replicate 11 'a') 10).length ≤
      (if (10 : ℤ) ≤ 0 then 2000 else (10 : ℤ).toNat) + auditTruncMark.length ∧
    truncateAuditEvent (List.replicate 11 'a') 10 =
      (List.replicate 11 'a').take (if (10 : ℤ) ≤ 0 then 2000 else (10 : ℤ).toNat) ++
        auditTruncMark :=
  ⟨(truncateAuditEvent_length_bound (List.replicate 11 'a') 10).1,
   (truncateAuditEvent_length_bound (List.replicate 11 'a') 10).2.2 (by decide)⟩

/-- Claim C10: when the store's EXISTS call errors inside the dedupe step,
`checkAndSetDedupe` returns true without writing a marker (the signal
proceeds to placement), so two identical signals during a store outage both
pass the dedupe check: at-most-once is conditional on the store responding. -/
theorem checkAndSetDedupe_storeErr_passes (w defW : ℕ) (s : DedupeStore)
    (ev1 ev2 : DedupeEvent) (h1 : ev1.storeErr = true) (h2 : ev2.storeErr = true) :
    checkAndSetDedupe w defW s ev1 = (true, s) ∧
    (checkAndSetDedupe w defW (checkAndSetDedupe w defW s ev1).2 ev2).1 = true := by
  unfold checkAndSetDedupe
  simp [h1, h2]

/-- Claim C10 witness: two identical BTCUSDT open-long signals in the same
5-second window, both hitting a store error, both pass. -/
theorem checkAndSetDedupe_storeErr_passes_witness :
    checkAndSetDedupe 5 5 [] ⟨1, "BTCUSDT", "open_long", "long", 50000, true⟩ =
      (true, []) ∧
    (checkAndSetDedupe 5 5
      (checkAndSetDedupe 5 5 [] ⟨1, "BTCUSDT", "open_long", "long", 50000, true⟩).2
      ⟨3, "BTCUSDT", "open_long", "long", 50000, true⟩).1 = true :=
  checkAndSetDedupe_storeErr_passes 5 5 []
    ⟨1, "BTCUSDT", "open_long", "long", 50000, true⟩
    ⟨3, "BTCUSDT", "open_long", "long", 50000, true⟩ rfl rfl

/-- Claim C5: the lock release is a CAS delete.  After any interleaving of
acquisitions, expiries (by passage of time) and releases: a release with
token `t1` leaves the key untouched whenever the currently stored unexpired
token is some different `t2` (in particular after expiry and re-acquisition
by another holder), and deletes the key when the stored token is `t1`
itself. -/
theorem releaseLock_cas_safety (s0 : LockState) (evs : List LockEvent)
    (now : ℕ) (t1 t2 : String) :
    (lockHolder (runLockEvents s0 evs) now = some t2 → t1 ≠ t2 →
      releaseLock (runLockEvents s0 evs) now t1 = runLockEvents s0 evs) ∧
    (lockHolder (runLockEvents s0 evs) now = some t1 →
      releaseLock (runLockEvents s0 evs) now t1 = none) := by
  constructor
  · intro hh hne
    unfold releaseLock
    rw [hh]
    simp [Ne.symm hne]
  · intro hh
    unfold releaseLock
    rw [hh]
    simp

/-- Claim C5 witness: token "a" acquired at time 0 with TTL 10, expired and
re-acquired by "b" at time 15; at time 20 the original holder's release of
"a" leaves the lock held by "b" untouched. -/
theorem releaseLock_cas_safety_witness :
    lockHolder (runLockEvents none [LockEvent.acq 0 10 "a", LockEvent.acq 15 10 "b"]) 20 =
      some "b" ∧
    releaseLock (runLockEvents none [LockEvent.acq 0 10 "a", LockEvent.acq 15 10 "b"]) 20 "a" =
      runLockEvents none [LockEvent.acq 0 10 "a", LockEvent.acq 15 10 "b"] :=
  ⟨by decide,
   (releaseLock_cas_safety none [LockEvent.acq 0 10 "a", LockEvent.acq 15 10 "b"] 20 "a" "b").1
     (by decide) (by decide)⟩

/-- The backoff multiplier loop computes the power `2^exp`. -/
theorem backoffMultiplier_eq_pow (n : ℕ) : backoffMultiplier n = 2 ^ n := by
  induction n with
  | zero => simp [backoffMultiplier]
  | succ n ih =>
    unfold backoffMultiplier at ih ⊢
    rw [List.range_succ, List.foldl_append, ih]
    simp [pow_succ]

/-- Claim C8, counterexample: on a 429 with `Retry-After: 120`, the code
clamps the wait to 60s and adds the 1s-capped jitter, yielding 61s, while
the claim's wait (Retry-After taken verbatim plus jitter) would be 121s. -/
theorem onRateLimitedWait_differs_from_claim :
    onRateLimitedWait 0 429 (some 120) = 61 ∧
    claimC8Wait 0 429 (some 120) = 121 ∧
    onRateLimitedWait 0 429 (some 120) ≠ claimC8Wait 0 429 (some 120) := by
  refine ⟨?_, ?_, ?_⟩ <;>
    norm_num [onRateLimitedWait, claimC8Wait, backoffMaxSec, max_def, min_def]

/-- Claim C8 (amended): on a 429/418 at consecutive-failure level ≤ 6, the
wait is the raw value of the claim — Retry-After when present, otherwise
`base × 2^level` (base 1s for 429, 60s for 418) capped at 60s — additionally
clamped to at least 1s and at most 60s, plus jitter `min(0.1 × wait, 1s)`;
with no release pending, the next release is set to `now + wait`. -/
theorem onRateLimitedWait_clamped_jitter (level status : ℕ) (ra : Option ℚ)
    (now : ℚ) (hlev : level ≤ backoffMaxLevel) :
    onRateLimitedWait level status ra =
      max 1 (min (rawWaitC8 level status ra) 60) +
        min ((1 / 10 : ℚ) * max 1 (min (rawWaitC8 level status ra) 60)) 1 ∧
    setBackoff none now (onRateLimitedWait level status ra) =
      some (now + onRateLimitedWait level status ra) := by
  have hjit : ∀ a : ℚ, (if a > 1 then (1 : ℚ) else a) = min a 1 := by
    intro a
    rw [min_def]
    split_ifs with h1 h2 <;> first | rfl | linarith
  have hbase : ∀ st : ℕ, (if st ≠ 418 then (1 : ℚ) else 60) =
      (if st = 418 then (60 : ℚ) else 1) := by
    intro st
    by_cases h : st = 418 <;> simp [h]
  have hmain : onRateLimitedWait level status ra =
      max 1 (min (rawWaitC8 level status ra) 60) +
        min ((1 / 10 : ℚ) * max 1 (min (rawWaitC8 level status ra) 60)) 1 := by
    cases ra with
    | some r =>
      simp only [onRateLimitedWait, rawWaitC8, backoffMaxSec, hjit]
    | none =>
      simp only [onRateLimitedWait, rawWaitC8, backoffMaxSec, hjit, hbase,
        min_eq_left hlev, backoffMultiplier_eq_pow]
  refine ⟨hmain, ?_⟩
  have hge : 1 ≤ onRateLimitedWait level status ra := by
    rw [hmain]
    have h1 : (1 : ℚ) ≤ max 1 (min (rawWaitC8 level status ra) 60) := le_max_left _ _
    have h2 : (0 : ℚ) ≤ min ((1 / 10 : ℚ) * max 1 (min (rawWaitC8 level status ra) 60)) 1 :=
      le_min (by nlinarith) (by norm_num)
    linarith
  unfold setBackoff
  rw [if_neg (by linarith)]

/-- Claim C8 witness: the amended characterization evaluated at level 0,
status 429, no Retry-After, `now = 0`. -/
theorem onRateLimitedWait_clamped_jitter_witness :
    (onRateLimitedWait 0 429 none =
      max 1 (min (rawWaitC8 0 429 none) 60) +
        min ((1 / 10 : ℚ) * max 1 (min (rawWaitC8 0 429 none) 60)) 1 ∧
    setBackoff none 0 (onRateLimitedWait 0 429 none) =
      some (0 + onRateLimitedWait 0 429 none)) :=
  onRateLimitedWait_clamped_jitter 0 429 none 0 (by decide)

/-- Looking up a key in the empty dedupe store finds nothing. -/
theorem lookupExpiry_nil (k : DedupeKey) : lookupExpiry [] k = none := rfl

/-- Prepending a different key leaves a key's lookup unchanged. -/
theorem lookupExpiry_cons_ne (a : DedupeKey) (t : ℕ) (s : DedupeStore)
    (k : DedupeKey) (hne : a ≠ k) :
    lookupExpiry ((a, t) :: s) k = lookupExpiry s k := by
  unfold lookupExpiry
  rw [List.find?_cons_of_neg]
  simp [hne]

/-- Prepending a key makes its lookup return the prepended expiry. -/
theorem lookupExpiry_cons_self (k : DedupeKey) (t : ℕ) (s : DedupeStore) :
    lookupExpiry ((k, t) :: s) k = some t := by
  unfold lookupExpiry
  rw [List.find?_cons_of_pos _ (by simp)]
  rfl

/-- One `checkAndSetDedupe` invocation cannot disturb the stored expiry of a
key that is still live at the invocation's time. -/
theorem lookupExpiry_step_preserved (w defW : ℕ) (st : DedupeStore)
    (ev : DedupeEvent) (k : DedupeKey) (e : ℕ)
    (hl : lookupExpiry st k = some e) (ht : ev.time < e) :
    lookupExpiry (checkAndSetDedupe w defW st ev).2 k = some e := by
  unfold checkAndSetDedupe
  by_cases herr : ev.storeErr
  · simp [herr, hl]
  · by_cases hlive : dedupeKeyLive st (mkDedupeKey w ev) ev.time
    · simp [herr, hlive, hl]
    · have hne : mkDedupeKey w ev ≠ k := by
        intro he
        apply hlive
        rw [he]
        unfold dedupeKeyLive
        rw [hl]
        simp [ht]
      simp only [herr, Bool.false_eq_true, if_false, hlive]
      rw [lookupExpiry_cons_ne _ _ _ _ hne]
      exact hl

/-- A trace of dedupe invocations whose times all precede a live key's
expiry cannot disturb that key's stored expiry. -/
theorem lookupExpiry_trace_preserved (w defW : ℕ) (evs : List DedupeEvent) :
    ∀ (st : DedupeStore) (k : DedupeKey) (e t2 : ℕ),
      lookupExpiry st k = some e → (∀ ev ∈ evs, ev.time ≤ t2) → t2 < e →
      lookupExpiry (processDedupe w defW st evs) k = some e := by
  induction evs with
  | nil =>
    intro st k e t2 hl _ _
    simpa [processDedupe] using hl
  | cons ev evs ih =>
    intro st k e t2 hl hb ht
    have h1 : lookupExpiry (checkAndSetDedupe w defW st ev).2 k = some e :=
      lookupExpiry_step_preserved w defW st ev k e hl
        (lt_of_le_of_lt (hb ev (List.mem_cons_self _ _)) ht)
    have h2 := ih (checkAndSetDedupe w defW st ev).2 k e t2 h1
      (fun x hx => hb x (List.mem_cons_of_mem _ hx)) ht
    simpa [processDedupe] using h2

/-- Claim C1: dedupe is at-most-once per tumbling window.  First part: if an
invocation with a given (symbol, action, side, entry-to-8dp, window) tuple
passed the dedupe check, then any later invocation with the same tuple in
the same window — after arbitrary intervening dedupe traffic within that
window — is rejected as a duplicate.  Second part: two identical signals in
different windows are both accepted. -/
theorem dedupe_at_most_once_per_window :
    (∀ (w defW : ℕ), 0 < w →
      ∀ (s : DedupeStore) (ev1 ev2 : DedupeEvent) (evs : List DedupeEvent),
      ev1.storeErr = false → ev2.storeErr = false →
      ev1.symbol = ev2.symbol → ev1.action = ev2.action → ev1.side = ev2.side →
      round8 ev1.entry = round8 ev2.entry →
      ev1.time ≤ ev2.time → ev1.time / w = ev2.time / w →
      (∀ ev ∈ evs, ev.time ≤ ev2.time) →
      (checkAndSetDedupe w defW s ev1).1 = true →
      (checkAndSetDedupe w defW
        (processDedupe w defW (checkAndSetDedupe w defW s ev1).2 evs) ev2).1 = false) ∧
    (∀ (w defW : ℕ), 0 < w → ∀ (ev1 ev2 : DedupeEvent),
      ev1.storeErr = false → ev2.storeErr = false →
      ev1.time / w ≠ ev2.time / w →
      (checkAndSetDedupe w defW [] ev1).1 = true ∧
      (checkAndSetDedupe w defW (checkAndSetDedupe w defW [] ev1).2 ev2).1 = true) := by
  constructor
  · intro w defW hW s ev1 ev2 evs herr1 herr2 hsym hact hside hent hle hwin hb h1
    have hkeq : mkDedupeKey w ev2 = mkDedupeKey w ev1 := by
      unfold mkDedupeKey
      rw [← hsym, ← hact, ← hside, ← hent, ← hwin]
    have hlive1 : dedupeKeyLive s (mkDedupeKey w ev1) ev1.time = false := by
      by_cases hc : dedupeKeyLive s (mkDedupeKey w ev1) ev1.time
      · exfalso
        unfold checkAndSetDedupe at h1
        simp [herr1, hc] at h1
      · simpa using hc
    have hstore : (checkAndSetDedupe w defW s ev1).2 =
        (mkDedupeKey w ev1, ev1.time + w) :: s := by
      unfold checkAndSetDedupe
      simp [herr1, hlive1, if_pos hW]
    have hl1 : lookupExpiry ((mkDedupeKey w ev1, ev1.time + w) :: s)
        (mkDedupeKey w ev1) = some (ev1.time + w) :=
      lookupExpiry_cons_self _ _ _
    have htime : ev2.time < ev1.time + w := by
      have e1 := Nat.div_add_mod ev2.time w
      have e2 := Nat.mod_lt ev2.time hW
      have e3 : w * (ev1.time / w) ≤ ev1.time := by
        rw [Nat.mul_comm]
        exact Nat.div_mul_le_self ev1.time w
      calc ev2.time = w * (ev2.time / w) + ev2.time % w := e1.symm
        _ < w * (ev2.time / w) + w := Nat.add_lt_add_left e2 _
        _ = w * (ev1.time / w) + w := by rw [hwin]
        _ ≤ ev1.time + w := Nat.add_le_add_right e3 w
    have hl2 : lookupExpiry
        (processDedupe w defW (checkAndSetDedupe w defW s ev1).2 evs)
        (mkDedupeKey w ev1) = some (ev1.time + w) := by
      apply lookupExpiry_trace_preserved w defW evs _ _ _ ev2.time _ hb htime
      rw [hstore]
      exact hl1
    set s2 := processDedupe w defW (checkAndSetDedupe w defW s ev1).2 evs with hs2
    have hlive2 : dedupeKeyLive s2 (mkDedupeKey w ev2) ev2.time = true := by
      unfold dedupeKeyLive
      rw [hkeq, hl2]
      simp [htime]
    unfold checkAndSetDedupe
    simp [herr2, hlive2]
  · intro w defW hW ev1 ev2 herr1 herr2 hwin
    have hlive1 : dedupeKeyLive [] (mkDedupeKey w ev1) ev1.time = false := rfl
    have hres1 : checkAndSetDedupe w defW [] ev1 =
        (true, [(mkDedupeKey w ev1, ev1.time + (if 0 < w then w else defW))]) := by
      unfold checkAndSetDedupe
      simp [herr1, hlive1]
    have hne : mkDedupeKey w ev1 ≠ mkDedupeKey w ev2 := by
      intro he
      exact hwin (congrArg DedupeKey.window he)
    refine ⟨by rw [hres1], ?_⟩
    rw [hres1]
    have hlive2 : dedupeKeyLive [(mkDedupeKey w ev1, ev1.time + (if 0 < w then w else defW))]
        (mkDedupeKey w ev2) ev2.time = false := by
      unfold dedupeKeyLive
      rw [lookupExpiry_cons_ne _ _ _ _ hne, lookupExpiry_nil]
    unfold checkAndSetDedupe
    simp [herr2, hlive2]

/-- Claim C1 witness: with a 5-second window, a BTCUSDT open-long at entry
50000 at t=1 is accepted and its repeat at t=3 (same window 0) is rejected;
with the repeat at t=7 (window 1) instead, both are accepted. -/
theorem dedupe_at_most_once_per_window_witness :
    ((checkAndSetDedupe 5 5
      (processDedupe 5 5
        (checkAndSetDedupe 5 5 [] ⟨1, "BTCUSDT", "open_long", "long", 50000, false⟩).2 [])
      ⟨3, "BTCUSDT", "open_long", "long", 50000, false⟩).1 = false) ∧
    ((checkAndSetDedupe 5 5 [] ⟨1, "BTCUSDT", "open_long", "long", 50000, false⟩).1 = true ∧
     (checkAndSetDedupe 5 5
       (checkAndSetDedupe 5 5 [] ⟨1, "BTCUSDT", "open_long", "long", 50000, false⟩).2
       ⟨7, "BTCUSDT", "open_long", "long", 50000, false⟩).1 = true) := by
  constructor
  · apply dedupe_at_most_once_per_window.1 5 5 (by norm_num) []
      ⟨1, "BTCUSDT", "open_long", "long", 50000, false⟩
      ⟨3, "BTCUSDT", "open_long", "long", 50000, false⟩ []
      rfl rfl rfl rfl rfl rfl (by norm_num) (by norm_num)
      (by intro ev hev; simp at hev)
    unfold checkAndSetDedupe
    simp [dedupeKeyLive, lookupExpiry]
  · exact dedupe_at_most_once_per_window.2 5 5 (by norm_num)
      ⟨1, "BTCUSDT", "open_long", "long", 50000, false⟩
      ⟨7, "BTCUSDT", "open_long", "long", 50000, false⟩
      rfl rfl (by norm_num [mkDedupeKey])

/-- Claim C2 (exhibiting the defect): one guard pass on the S3 state places
the stop-loss and TP1 orders; a second pass places them again (four open
orders), because the hasSL/hasTP detection compares the lower-cased `side`
local against the upper-case literals "LONG"/"SHORT" and therefore never
recognizes the existing orders.  Reconciliation is not idempotent. -/
theorem guard_second_pass_duplicates_orders :
    (ensureSLTPGuardOnce s3State).orders.length = 2 ∧
    (ensureSLTPGuardOnce (ensureSLTPGuardOnce s3State)).orders.length = 4 ∧
    ensureSLTPGuardOnce (ensureSLTPGuardOnce s3State) ≠ ensureSLTPGuardOnce s3State := by
  have h2 : (ensureSLTPGuardOnce s3State).orders.length = 2 := by
    norm_num +decide [ensureSLTPGuardOnce, cleanupProtection, cleanupKey, guardPosition,
      s3State, lookupProtection, posMapGet, pushAudit, appendOrder, placeStopLossOrder,
      placeTakeProfitOrder, isReduceOnly, guardSideMatch, tp1Nearer, goRound,
      strToLower, strToUpper, max_def, min_def]
  have h4 : (ensureSLTPGuardOnce (ensureSLTPGuardOnce s3State)).orders.length = 4 := by
    norm_num +decide [ensureSLTPGuardOnce, cleanupProtection, cleanupKey, guardPosition,
      s3State, lookupProtection, posMapGet, pushAudit, appendOrder, placeStopLossOrder,
      placeTakeProfitOrder, isReduceOnly, guardSideMatch, tp1Nearer, goRound,
      strToLower, strToUpper, max_def, min_def]
  refine ⟨h2, h4, fun he => ?_⟩
  have hlen := congrArg (fun st => st.orders.length) he
  simp only [h2, h4] at hlen
  exact absurd hlen (by norm_num)

/-- Claim C3, counterexample: on the S3 state the guard's TAKE_PROFIT_MARKET
order has quantity 0.5, not 1.0 — no TP order with the full position size
is placed, contradicting the claim. -/
theorem s3_guard_tp1_not_full_size :
    ¬ ∃ o ∈ (ensureSLTPGuardOnce s3State).orders,
      o.orderType = "TAKE_PROFIT_MARKET" ∧ o.quantity = 1 := by
  norm_num +decide [ensureSLTPGuardOnce, cleanupProtection, cleanupKey, guardPosition,
    s3State, lookupProtection, posMapGet, pushAudit, appendOrder, placeStopLossOrder,
    placeTakeProfitOrder, isReduceOnly, guardSideMatch, tp1Nearer, goRound,
    strToLower, strToUpper, max_def, min_def]

/-- Claim C3 (amended): one guard pass on the S3 state places exactly one
reduce-only STOP_MARKET sell at 48000 with quantity 1.0 and exactly one
reduce-only TAKE_PROFIT_MARKET sell at 52000 with quantity
0.5 = round(size × tp1_ratio, 1e-8) — the amt1 ≤ 0 fallback to the full
size does not fire since amt1 = 0.5 — and places no TP2 order (tp2 = 0). -/
theorem s3_guard_places_sl_and_half_tp1 :
    (ensureSLTPGuardOnce s3State).orders =
      [⟨0, "BTCUSDT", "SELL", "LONG", "STOP_MARKET", 1, 0, 48000, true⟩,
       ⟨1, "BTCUSDT", "SELL", "LONG", "TAKE_PROFIT_MARKET", 1 / 2, 0, 52000, true⟩] ∧
    (ensureSLTPGuardOnce s3State).audits =
      ["guard_take_profit_placed", "guard_stop_loss_placed"] := by
  constructor <;>
    norm_num +decide [ensureSLTPGuardOnce, cleanupProtection, cleanupKey, guardPosition,
      s3State, lookupProtection, posMapGet, pushAudit, appendOrder, placeStopLossOrder,
      placeTakeProfitOrder, isReduceOnly, guardSideMatch, tp1Nearer, goRound,
      strToLower, strToUpper, max_def, min_def]

/-- One cleanup step never touches the exchange positions. -/
theorem cleanupKey_positions (st : GuardState) (k : String × String) :
    (cleanupKey st k).positions = st.positions := by
  unfold cleanupKey
  by_cases h : 0 < posMapGet st.positions (strToUpper k.1) (strToLower (strToUpper k.2))
  · simp [h]
  · simp only [h, if_false, pushAudit]
    split <;> rfl

/-- One cleanup step only cancels orders: any order still open afterwards
was open before. -/
theorem cleanupKey_orders_subset (st : GuardState) (k : String × String)
    (o : Order) (ho : o ∈ (cleanupKey st k).orders) : o ∈ st.orders := by
  unfold cleanupKey at ho
  by_cases h : 0 < posMapGet st.positions (strToUpper k.1) (strToLower (strToUpper k.2))
  · simpa [h] using ho
  · simp only [h, if_false, pushAudit] at ho
    split at ho <;> exact List.mem_of_mem_filter ho

/-- One cleanup step only deletes protection entries. -/
theorem cleanupKey_protections_subset (st : GuardState) (k : String × String)
    (e : (String × String) × Protection)
    (he : e ∈ (cleanupKey st k).protections) : e ∈ st.protections := by
  unfold cleanupKey at he
  by_cases h : 0 < posMapGet st.positions (strToUpper k.1) (strToLower (strToUpper k.2))
  · simpa [h] using he
  · simp only [h, if_false, pushAudit] at he
    split at he <;> exact List.mem_of_mem_filter he

/-- Processing an orphaned key deletes its protection entry and cancels
every open order that its type-based reduce-only test classifies for that
(symbol, positionSide) pair. -/
theorem cleanupKey_cleans (st : GuardState) (sym pside : String)
    (horph : ¬ 0 < posMapGet st.positions (strToUpper sym) (strToLower (strToUpper pside))) :
    (∀ p : Protection, ((sym, pside), p) ∉ (cleanupKey st (sym, pside)).protections) ∧
    (∀ o ∈ (cleanupKey st (sym, pside)).orders,
      ¬(o.symbol = strToUpper sym ∧ isReduceOnly o = true ∧
        strToUpper o.positionSide = strToUpper pside)) := by
  unfold cleanupKey
  rw [if_neg horph]
  constructor
  · intro p hp
    simp only [pushAudit] at hp
    split at hp <;>
    · have := List.of_mem_filter hp
      simp at this
  · intro o ho hbad
    simp only [pushAudit] at ho
    have ho' : o ∈ st.orders.filter (fun o =>
        !((decide (o.symbol = strToUpper (sym, pside).1) && isReduceOnly o) &&
          decide (strToUpper o.positionSide = strToUpper (sym, pside).2))) := by
      split at ho <;> simpa using ho
    have hkeep := List.of_mem_filter ho'
    simp [hbad.1, hbad.2.1, hbad.2.2] at hkeep

/-- Positions survive a whole cleanup fold unchanged. -/
theorem cleanup_foldl_positions (ks : List (String × String)) :
    ∀ st : GuardState, (ks.foldl cleanupKey st).positions = st.positions := by
  induction ks with
  | nil => intro st; rfl
  | cons k ks ih =>
    intro st
    simp only [List.foldl_cons]
    rw [ih, cleanupKey_positions]

/-- Orders never reappear during a cleanup fold. -/
theorem cleanup_foldl_orders_subset (ks : List (String × String)) :
    ∀ (st : GuardState) (o : Order),
      o ∈ (ks.foldl cleanupKey st).orders → o ∈ st.orders := by
  induction ks with
  | nil => intro st o h; simpa using h
  | cons k ks ih =>
    intro st o h
    simp only [List.foldl_cons] at h
    exact cleanupKey_orders_subset st k o (ih _ o h)

/-- Protection entries never reappear during a cleanup fold. -/
theorem cleanup_foldl_protections_subset (ks : List (String × String)) :
    ∀ (st : GuardState) (e : (String × String) × Protection),
      e ∈ (ks.foldl cleanupKey st).protections → e ∈ st.protections := by
  induction ks with
  | nil => intro st e h; simpa using h
  | cons k ks ih =>
    intro st e h
    simp only [List.foldl_cons] at h
    exact cleanupKey_protections_subset st k e (ih _ e h)

/-- The cleanup fold, once it reaches an orphaned key, establishes — and the
rest of the fold preserves — that the key's entry is gone and no
type-classified reduce-only order for its pair remains. -/
theorem cleanup_foldl_cleans (sym pside : String) (posns : List Position)
    (horph : ¬ 0 < posMapGet posns (strToUpper sym) (strToLower (strToUpper pside))) :
    ∀ (ks : List (String × String)) (st : GuardState),
      st.positions = posns → (sym, pside) ∈ ks →
      (∀ p : Protection, ((sym, pside), p) ∉ (ks.foldl cleanupKey st).protections) ∧
      (∀ o ∈ (ks.foldl cleanupKey st).orders,
        ¬(o.symbol = strToUpper sym ∧ isReduceOnly o = true ∧
          strToUpper o.positionSide = strToUpper pside)) := by
  intro ks
  induction ks with
  | nil => intro st _ hk; exact absurd hk (List.not_mem_nil _)
  | cons k ks ih =>
    intro st hpos hk
    simp only [List.foldl_cons]
    by_cases hkk : k = (sym, pside)
    · subst hkk
      have hest := cleanupKey_cleans st sym pside (hpos ▸ horph)
      constructor
      · intro p hp
        exact hest.1 p (cleanup_foldl_protections_subset ks _ _ hp)
      · intro o ho
        exact hest.2 o (cleanup_foldl_orders_subset ks _ o ho)
    · have htail : (sym, pside) ∈ ks := by
        rcases List.mem_cons.mp hk with heq | htail
        · exact absurd heq.symm hkk
        · exact htail
      exact ih (cleanupKey st k) (by rw [cleanupKey_positions, hpos]) htail

/-- Claim C4 (amended): for every stored `protection:{symbol}:{side}` entry
with no matching open position, one cleanup pass deletes the entry and
cancels every open order that the code's type-based `isReduceOnly` test
(STOP/STOP_MARKET/TAKE_PROFIT/TAKE_PROFIT_MARKET) classifies as reduce-only
for that (symbol, positionSide); reduce-only orders of other types (e.g. a
reduce-only LIMIT) are not cancelled and may remain open. -/
theorem cleanup_orphan_deletes_and_cancels (s : GuardState) (sym pside : String)
    (prot : Protection) (hmem : ((sym, pside), prot) ∈ s.protections)
    (horph : ¬ 0 < posMapGet s.positions (strToUpper sym) (strToLower (strToUpper pside))) :
    (∀ p : Protection, ((sym, pside), p) ∉ (cleanupProtection s).protections) ∧
    (∀ o ∈ (cleanupProtection s).orders,
      ¬(o.symbol = strToUpper sym ∧ isReduceOnly o = true ∧
        strToUpper o.positionSide = strToUpper pside)) := by
  unfold cleanupProtection
  exact cleanup_foldl_cleans sym pside s.positions horph
    (s.protections.map (·.1)) s rfl
    (List.mem_map_of_mem (·.1) hmem)

/-- Claim C4 witness: the amended cleanup guarantee evaluated on the
orphaned ETHUSDT LONG state. -/
theorem cleanup_orphan_deletes_and_cancels_witness :
    (∀ p : Protection, (("ETHUSDT", "LONG"), p) ∉ (cleanupProtection orphanLimitState).protections) ∧
    (∀ o ∈ (cleanupProtection orphanLimitState).orders,
      ¬(o.symbol = strToUpper "ETHUSDT" ∧ isReduceOnly o = true ∧
        strToUpper o.positionSide = strToUpper "LONG")) :=
  cleanup_orphan_deletes_and_cancels orphanLimitState "ETHUSDT" "LONG"
    ⟨2800, 3400, 0, 1 / 2, "sig-2"⟩
    (by simp [orphanLimitState])
    (by norm_num [orphanLimitState, posMapGet])

/-- Claim C4, counterexample: on the orphaned ETHUSDT LONG state whose only
open order is a reduce-only LIMIT sell, one cleanup pass deletes the
protection entry but leaves that reduce-only order open — the cancel loop
only matches the four conditional order types — so a reduce-only order for
the pair does remain, contrary to the claim. -/
theorem cleanup_leaves_reduceonly_limit_open :
    (cleanupProtection orphanLimitState).protections = [] ∧
    (cleanupProtection orphanLimitState).orders =
      [⟨7, "ETHUSDT", "SELL", "LONG", "LIMIT", 1, 2800, 0, true⟩] ∧
    (∃ o ∈ (cleanupProtection orphanLimitState).orders,
      o.reduceOnly = true ∧ o.positionSide = "LONG" ∧ o.symbol = "ETHUSDT") := by
  have horders : (cleanupProtection orphanLimitState).orders =
      [⟨7, "ETHUSDT", "SELL", "LONG", "LIMIT", 1, 2800, 0, true⟩] := by
    norm_num +decide [cleanupProtection, cleanupKey, orphanLimitState, posMapGet,
      pushAudit, isReduceOnly, strToLower, strToUpper]
  refine ⟨?_, horders, ?_⟩
  · norm_num +decide [cleanupProtection, cleanupKey, orphanLimitState, posMapGet,
      pushAudit, isReduceOnly, strToLower, strToUpper]
  · exact ⟨⟨7, "ETHUSDT", "SELL", "LONG", "LIMIT", 1, 2800, 0, true⟩,
      by rw [horders]; exact List.mem_singleton_self _, rfl, rfl, rfl⟩

end Nofx
